import Mathlib

/-!
# Introspective Failure Memory Model — verification of the specification

A shallow embedding of the Introspective Failure Memory (IFM) system.
The repository ships the React frontend (`frontend-v2`); its components
(`ConfusionMatrix`, `Dashboard`, `HeatmapChart`, `ControlPanel`,
`RiskCoverageSection`) are embedded directly from their TypeScript source.
The backend engine (FailureMemory, RegimeRiskEstimator,
SelectiveDecisionPolicy, StreamOrchestrator) is not part of the sources;
those components are modelled from the specification text, and each such
definition is marked `Modelled from the spec:` in its doc comment.
-/

namespace IFM

/-! ## Selective decision policy (C1)

Modelled from the spec: the backend `SelectiveDecisionPolicy` is not in the
repository sources.  Spec §4.5: `decide(risk_t, confidence) → {ACCEPT,
ABSTAIN}`: ABSTAIN if risk_t > risk_threshold OR confidence <
confidence_threshold; deterministic, no hidden state. -/

/-- The two outcomes of the selective decision policy. -/
inductive Decision where
  | ACCEPT
  | ABSTAIN
deriving DecidableEq, Repr

/-- Modelled from the spec: `SelectiveDecisionPolicy.decide` is not in the
repository sources.  ABSTAIN iff `risk_t > risk_threshold` or
`confidence < confidence_threshold`, ACCEPT otherwise (spec §4.5). -/
def selectiveDecide (riskThreshold confThreshold risk conf : ℚ) : Decision :=
  if riskThreshold < risk ∨ conf < confThreshold then .ABSTAIN else .ACCEPT

/-! ## Regime risk estimator (C2, C6)

Modelled from the spec: the backend `RegimeRiskEstimator` is not in the
repository sources.  Spec §4.3: update rule
`risk_t = α·raw_signal + (1-α)·risk_{t-1}`, clamped to [0,1]. -/

/-- Clamp a real number into the closed interval `[0,1]`. -/
def clamp01 (x : ℝ) : ℝ := max 0 (min 1 x)

/-- Modelled from the spec: `RegimeRiskEstimator`'s update step is not in
the repository sources.  One EMA update
`risk_t = α·raw_signal + (1-α)·risk_{t-1}`, clamped to `[0,1]` (spec §4.3). -/
def riskStep (α s r : ℝ) : ℝ := clamp01 (α * s + (1 - α) * r)

/-- The trajectory of per-update risk values produced by feeding a sequence
of raw signals through `riskStep`, starting from risk value `r`.  The list
holds the risk value after each update, in order. -/
def riskTraj (α : ℝ) (r : ℝ) : List ℝ → List ℝ
  | [] => []
  | s :: rest => riskStep α s r :: riskTraj α (riskStep α s r) rest

/-- Iterated risk update under a constant raw input signal `s`. -/
def riskIter (α s r0 : ℝ) : ℕ → ℝ
  | 0 => r0
  | n + 1 => riskStep α s (riskIter α s r0 n)

/-! ## Confusion-matrix colouring (C8)

Embedded from `src/frontend-v2/src/components/ConfusionMatrix.tsx`:
`const total = confusion.tp + confusion.tn + confusion.fp + confusion.fn || 1;`
`const opacity = Math.min(0.8, val / total + 0.1);` -/

/-- The colouring denominator of `ConfusionMatrix.tsx` line 8: the sum of the
four confusion counts, with the JavaScript `|| 1` fallback turning a zero
sum into `1`. -/
def confusionTotal (tp tn fp fn : ℕ) : ℕ :=
  if tp + tn + fp + fn = 0 then 1 else tp + tn + fp + fn

/-- The cell opacity computed by `getCellColor` in `ConfusionMatrix.tsx`
line 11: `Math.min(0.8, val / total + 0.1)`. -/
def cellOpacity (val total : ℕ) : ℚ :=
  min (8 / 10) ((val : ℚ) / (total : ℚ) + 1 / 10)

/-! ## Dashboard stream buffer (C9)

Embedded from `src/frontend-v2/src/components/Dashboard.tsx`:
`useState<number[]>(Array(40).fill(0))` and `handleStreamData`:
`const next = [...prev]; next.shift(); next.push(data.failure_probability);` -/

/-- The initial `streamData` state of `Dashboard.tsx` line 317:
`Array(40).fill(0)`. -/
def initStreamData : List ℚ := List.replicate 40 0

/-- One `handleStreamData` update (`Dashboard.tsx` lines 385–391): copy the
buffer, `shift()` the oldest element off the front, `push` the incoming
`failure_probability` onto the back. -/
def handleStreamData (prev : List ℚ) (failureProbability : ℚ) : List ℚ :=
  prev.tail ++ [failureProbability]

/-- The stream buffer after a sequence of incoming stream messages, starting
from the initial 40-zero buffer. -/
def streamDataAfter (msgs : List ℚ) : List ℚ :=
  msgs.foldl handleStreamData initStreamData

/-! ## Heatmap cluster datasets (C10)

Embedded from the `HeatmapChart` component (`Dashboard.tsx` lines 623–631):
`const datasets = [0, 1, 2].map(cid => ({ ...,
data: points.filter(p => p.cluster === cid).map(p => ({x: p.x, y: p.y})) }))`. -/

/-- An embedding point fetched from `/api/failures/embeddings`. -/
structure EmbeddingPoint where
  x : ℚ
  y : ℚ
  cluster : ℤ
deriving DecidableEq, Repr

/-- The data array of the dataset for cluster id `cid`:
`points.filter(p => p.cluster === cid).map(p => ({ x: p.x, y: p.y }))`. -/
def clusterDatasetData (points : List EmbeddingPoint) (cid : ℤ) : List (ℚ × ℚ) :=
  (points.filter (fun p => p.cluster == cid)).map (fun p => (p.x, p.y))

/-- The dataset list built by `HeatmapChart`: one dataset per cluster id in
the hard-coded list `[0, 1, 2]`. -/
def heatmapDatasets (points : List EmbeddingPoint) : List (List (ℚ × ℚ)) :=
  ([0, 1, 2] : List ℤ).map (clusterDatasetData points)

/-! ## Failure memory ring buffer (C4)

Modelled from the spec: the backend `FailureMemory` is not in the repository
sources.  Spec §4.2: `record(failureRecord)` is admitted only if confidence
≥ threshold and misclassified; appended to a capacity-bounded ring buffer,
oldest evicted on overflow.  The frontend history buffer
(`ws.onmessage`: `[...prev, data].slice(-50)`) realises the same
append-then-keep-last-capacity shape at capacity 50. -/

/-- The last `n` elements of a list (the JavaScript `slice(-n)`). -/
def takeLast {α : Type} (n : ℕ) (l : List α) : List α :=
  l.drop (l.length - n)

/-- A stored failure record: detection timestamp, reported confidence, and
whether the sample was misclassified. -/
structure FailureRecord where
  timestamp : ℕ
  confidence : ℚ
  mispredicted : Bool
deriving DecidableEq, Repr

/-- Modelled from the spec: the admission test of `FailureMemory.record`
(spec §4.2) — admitted only if confidence ≥ threshold and misclassified. -/
def admitsRecord (confThreshold : ℚ) (r : FailureRecord) : Bool :=
  confThreshold ≤ r.confidence && r.mispredicted

/-- Modelled from the spec: `FailureMemory.record` (spec §4.2) — if the
record qualifies, append it to the buffer and evict from the front down to
`capacity`; otherwise leave the buffer unchanged. -/
def recordFailure (capacity : ℕ) (confThreshold : ℚ)
    (buf : List FailureRecord) (r : FailureRecord) : List FailureRecord :=
  if admitsRecord confThreshold r then takeLast capacity (buf ++ [r]) else buf

/-- Feed a sequence of candidate failure records into an initially empty
failure memory. -/
def feedFailures (capacity : ℕ) (confThreshold : ℚ)
    (recs : List FailureRecord) : List FailureRecord :=
  recs.foldl (recordFailure capacity confThreshold) []

/-! ## Stream orchestrator control plane (C7)

Modelled from the spec: the backend `StreamOrchestrator` is not in the
repository sources.  Spec §4.6: state machine RUNNING ⇄ PAUSED; `STEP` is
valid only while PAUSED and admits exactly one sample then re-pauses;
spec §6: control commands {pause, resume, step, set_threshold,
set_regime_override, reset}. -/

/-- The control commands of the orchestrator control plane (spec §6). -/
inductive Command where
  | pause
  | resume
  | step
  | setThreshold (v : ℚ)
  | setRegimeOverride (r : Option ℕ)
  | reset
deriving DecidableEq, Repr

/-- The session state touched by control commands: the RUNNING/PAUSED flag,
the confidence threshold, the regime override, and the number of samples
admitted so far. -/
structure OrchState where
  paused : Bool
  threshold : ℚ
  regimeOverride : Option ℕ
  admitted : ℕ
deriving DecidableEq, Repr

/-- The initial session state (RUNNING, default threshold, no override,
no samples admitted). -/
def initOrch : OrchState := ⟨false, 1 / 2, none, 0⟩

/-- Modelled from the spec: the orchestrator's control-command handler
(spec §4.6, §6).  `step` is valid only while PAUSED; it admits exactly one
sample and re-pauses.  `reset` reinitialises the session. -/
def applyCommand (st : OrchState) : Command → OrchState
  | .pause => { st with paused := true }
  | .resume => { st with paused := false }
  | .step => if st.paused then { st with admitted := st.admitted + 1 } else st
  | .setThreshold v => { st with threshold := v }
  | .setRegimeOverride r => { st with regimeOverride := r }
  | .reset => initOrch

/-! ## Per-sample fault handling (C5)

Modelled from the spec: the backend `StreamOrchestrator`'s per-sample fault
handling is not in the repository sources.  Spec §4.6/§7: on an unexpected
fault (`ProcessingFault`) while processing one sample, the sample is marked
processing-error, its decision defaults to ABSTAIN, and the stream
continues; only an explicit external stop/reset ends the session. -/

/-- An unexpected failure raised while processing one sample (spec §7). -/
inductive ProcessingFault where
  | fault (code : ℕ)
deriving DecidableEq, Repr

/-- The per-sample result record emitted to observers: the decision and the
diagnostic processing-error flag. -/
structure ResultRecord where
  decision : Decision
  processingError : Bool
deriving DecidableEq, Repr

/-- The part of the session state relevant to stream liveness: whether the
session is still active, and how many samples have been processed. -/
structure SessionState where
  active : Bool
  processed : ℕ
deriving DecidableEq, Repr

/-- Modelled from the spec: the orchestrator's handling of one sample
(spec §4.6, §7).  `outcome` is the result of the per-sample pipeline
(embed → assign → risk-update → forecast → decide), which either yields a
decision or raises a `ProcessingFault`.  A fault marks the sample
processing-error, defaults the decision to ABSTAIN, and the session stays
as it was (the stream continues). -/
def handleSample (st : SessionState)
    (outcome : Except ProcessingFault Decision) :
    SessionState × ResultRecord :=
  match outcome with
  | .ok d => ({ st with processed := st.processed + 1 }, ⟨d, false⟩)
  | .error _ => ({ st with processed := st.processed + 1 }, ⟨.ABSTAIN, true⟩)

/-- Run a whole stream of per-sample outcomes through the session. -/
def runStream (st : SessionState)
    (outcomes : List (Except ProcessingFault Decision)) : SessionState :=
  outcomes.foldl (fun s o => (handleSample s o).1) st

/-- Modelled from the spec: the explicit external stop/reset — the only
operation that ends a session (spec §4.6, §7). -/
def stopSession (st : SessionState) : SessionState := { st with active := false }

/-! ## Risk–coverage curve (C3)

Modelled from the spec: `computeRiskCoverageCurve` of the backend
`SelectiveDecisionPolicy` is not in the repository sources.  Spec §4.5:
sweep a rejection-strength parameter from most- to least-restrictive; at
each step retain the top-`coverage` fraction of samples ranked by (risk
ascending, confidence descending) and measure the error among retained. -/

/-- A historical record fed to the offline risk–coverage calibration: the
per-sample risk, the classifier confidence, and whether the base
prediction was wrong. -/
structure HistRecord where
  risk : ℚ
  confidence : ℚ
  isError : Bool
deriving DecidableEq, Repr

/-- The retention ranking of spec §4.5: risk ascending, confidence
descending (a stable tie-break for reproducibility). -/
def rankLE (a b : HistRecord) : Bool :=
  decide (a.risk < b.risk) ||
    (decide (a.risk = b.risk) && decide (b.confidence ≤ a.confidence))

/-- The number of erroneous records in a list. -/
def errorCount (recs : List HistRecord) : ℕ :=
  recs.countP (fun r => r.isError)

/-- The unconditional baseline error rate of a record set. -/
def baselineErrorRate (recs : List HistRecord) : ℚ :=
  (errorCount recs : ℚ) / (recs.length : ℚ)

/-- Modelled from the spec: `computeRiskCoverageCurve` (spec §4.5).  The
records are ranked by `rankLE`; the sweep retains the best `m` records for
`m = 1, …, n`, from most restrictive to least restrictive, reporting the
pair (coverage `m/n`, error rate among the retained `m`). -/
def computeRiskCoverageCurve (recs : List HistRecord) : List (ℚ × ℚ) :=
  (List.range recs.length).map (fun (i : ℕ) =>
    (((i : ℚ) + 1) / (recs.length : ℚ),
      (errorCount ((recs.mergeSort rankLE).take (i + 1)) : ℚ) / ((i : ℚ) + 1)))

end IFM

namespace IFM

/-- C1: `selectiveDecide` returns ABSTAIN exactly when the risk exceeds the
risk threshold or the confidence falls below the confidence threshold, and
ACCEPT otherwise; it is a pure function of its four arguments.  In
particular, with risk_threshold = 0.3, any confidence threshold, risk
0.5 and confidence 0.9, the decision is ABSTAIN. -/
theorem selectiveDecide_abstain_iff (riskThreshold confThreshold risk conf : ℚ) :
    (selectiveDecide riskThreshold confThreshold risk conf = .ABSTAIN ↔
      riskThreshold < risk ∨ conf < confThreshold) ∧
    selectiveDecide (3 / 10) confThreshold (1 / 2) (9 / 10) = .ABSTAIN := by
  constructor
  · unfold selectiveDecide
    split <;> simp_all
  · unfold selectiveDecide
    rw [if_pos (Or.inl (by norm_num))]

/-- C2: every value appearing in the risk trajectory — i.e. `risk_t` after
every update — lies in `[0,1]`, for every starting value, every decay
parameter and every sequence of raw input signals (even unnormalised ones):
the bound is enforced by the explicit clamp, not by the EMA formula. -/
theorem riskTraj_mem_Icc (α r0 : ℝ) (sigs : List ℝ) (x : ℝ)
    (hx : x ∈ riskTraj α r0 sigs) : 0 ≤ x ∧ x ≤ 1 := by
  induction sigs generalizing r0 with
  | nil => simp [riskTraj] at hx
  | cons s rest ih =>
    simp only [riskTraj, List.mem_cons] at hx
    rcases hx with rfl | hx
    · unfold riskStep clamp01
      exact ⟨le_max_left 0 _, max_le zero_le_one (min_le_left _ _)⟩
    · exact ih _ hx

/-- Witness for C2: with α = 2, starting risk −3 and the single raw signal 5,
the updated risk is the clamped value 1, which lies in `[0,1]`. -/
theorem riskTraj_mem_Icc_witness :
    (1 : ℝ) ∈ riskTraj 2 (-3) [5] ∧ 0 ≤ (1 : ℝ) ∧ (1 : ℝ) ≤ 1 := by
  have hmem : (1 : ℝ) ∈ riskTraj 2 (-3) [5] := by
    have : riskStep 2 5 (-3) = 1 := by
      unfold riskStep clamp01
      norm_num
    simp [riskTraj, this]
  exact ⟨hmem, riskTraj_mem_Icc 2 (-3) [5] 1 hmem⟩

/-- C8: the colouring denominator used by `ConfusionMatrix` is at least 1
for every confusion-matrix input (including tp = tn = fp = fn = 0), so
`getCellColor` never divides by zero, and the computed cell opacity never
exceeds 0.8. -/
theorem confusionTotal_pos_and_opacity_le (tp tn fp fn val : ℕ) :
    1 ≤ confusionTotal tp tn fp fn ∧
      cellOpacity val (confusionTotal tp tn fp fn) ≤ 8 / 10 := by
  constructor
  · unfold confusionTotal
    split <;> omega
  · exact min_le_left _ _

/-- Folding `handleStreamData` over messages from a nonempty buffer keeps
the last `length` entries of the buffer followed by the messages. -/
theorem foldl_handleStreamData (msgs : List ℚ) (l : List ℚ) (hl : l ≠ []) :
    msgs.foldl handleStreamData l = (l ++ msgs).drop msgs.length := by
  induction msgs generalizing l with
  | nil => simp
  | cons x ms ih =>
    rcases l with _ | ⟨a, t⟩
    · exact absurd rfl hl
    · have hne : handleStreamData (a :: t) x ≠ [] := by
        simp [handleStreamData]
      rw [List.foldl_cons, ih _ hne]
      simp only [handleStreamData, List.tail_cons, List.length_cons]
      rw [List.append_assoc, List.cons_append]
      rfl

/-- C9: after every sequence of incoming stream messages, the Dashboard
stream buffer still has exactly 40 entries, and it equals the last 40
elements of the initial zero buffer followed by all messages — the most
recent values in arrival order. -/
theorem streamDataAfter_length_and_suffix (msgs : List ℚ) :
    (streamDataAfter msgs).length = 40 ∧
      streamDataAfter msgs = (initStreamData ++ msgs).drop msgs.length := by
  have h : streamDataAfter msgs = (initStreamData ++ msgs).drop msgs.length :=
    foldl_handleStreamData msgs initStreamData (by simp [initStreamData])
  refine ⟨?_, h⟩
  rw [h, List.length_drop]
  simp only [List.length_append, initStreamData, List.length_replicate]
  omega

/-- C10: `HeatmapChart` builds exactly three datasets (for cluster ids 0, 1
and 2), and every embedding point whose cluster id lies outside {0, 1, 2}
survives none of the three cluster filters, so it contributes to no
dataset. -/
theorem heatmapDatasets_three_and_drops_other_clusters
    (points : List EmbeddingPoint) :
    (heatmapDatasets points).length = 3 ∧
      ∀ p : EmbeddingPoint, p.cluster ≠ 0 → p.cluster ≠ 1 → p.cluster ≠ 2 →
        ∀ cid ∈ ([0, 1, 2] : List ℤ),
          p ∉ points.filter (fun q => q.cluster == cid) := by
  refine ⟨by simp [heatmapDatasets], ?_⟩
  intro p h0 h1 h2 cid hcid hmem
  rw [List.mem_filter, beq_iff_eq] at hmem
  rcases hmem with ⟨-, hc⟩
  simp only [List.mem_cons, List.not_mem_nil, or_false] at hcid
  rcases hcid with rfl | rfl | rfl
  · exact h0 hc
  · exact h1 hc
  · exact h2 hc

/-- Witness for C10: a single point with cluster id 5 is rejected by all
three cluster filters of `HeatmapChart`. -/
theorem heatmapDatasets_witness :
    (heatmapDatasets [⟨1, 2, 5⟩]).length = 3 ∧
      ∀ cid ∈ ([0, 1, 2] : List ℤ),
        (⟨1, 2, 5⟩ : EmbeddingPoint) ∉
          List.filter (fun q => q.cluster == cid) [⟨1, 2, 5⟩] :=
  ⟨(heatmapDatasets_three_and_drops_other_clusters [⟨1, 2, 5⟩]).1,
    (heatmapDatasets_three_and_drops_other_clusters [⟨1, 2, 5⟩]).2
      ⟨1, 2, 5⟩ (by decide) (by decide) (by decide)⟩

/-- The function `takeLast` never returns more than `n` elements. -/
theorem takeLast_length_le {α : Type} (n : ℕ) (l : List α) :
    (takeLast n l).length ≤ n := by
  unfold takeLast
  rw [List.length_drop]
  omega

/-- Keeping the last `n` of a list, appending, and keeping the last `n`
again is the same as keeping the last `n` of the whole concatenation. -/
theorem takeLast_takeLast_append {α : Type} (n : ℕ) (s l : List α) :
    takeLast n (takeLast n s ++ l) = takeLast n (s ++ l) := by
  unfold takeLast
  rw [← @List.drop_append_of_le_length _ s l (s.length - n) (by omega)]
  rw [List.drop_drop]
  congr 1
  simp only [List.length_append, List.length_drop]
  omega

/-- Folding qualifying records through `recordFailure` behaves as appending
them all and keeping the last `capacity`. -/
theorem foldl_recordFailure (capacity : ℕ) (confThreshold : ℚ)
    (recs : List FailureRecord) (buf : List FailureRecord)
    (hbuf : buf.length ≤ capacity)
    (hq : ∀ r ∈ recs, admitsRecord confThreshold r = true) :
    recs.foldl (recordFailure capacity confThreshold) buf =
      takeLast capacity (buf ++ recs) := by
  induction recs generalizing buf with
  | nil =>
    simp only [List.foldl_nil, List.append_nil]
    unfold takeLast
    rw [Nat.sub_eq_zero_of_le hbuf, List.drop_zero]
  | cons x ms ih =>
    rw [List.foldl_cons]
    rw [recordFailure, if_pos (hq x (by simp))]
    rw [ih _ (takeLast_length_le _ _) (fun r hr => hq r (by simp [hr]))]
    rw [takeLast_takeLast_append]
    simp

/-- The operation `recordFailure` preserves the capacity bound on the buffer. -/
theorem recordFailure_length_le (capacity : ℕ) (confThreshold : ℚ)
    (buf : List FailureRecord) (r : FailureRecord)
    (hbuf : buf.length ≤ capacity) :
    (recordFailure capacity confThreshold buf r).length ≤ capacity := by
  unfold recordFailure
  split
  · exact takeLast_length_le _ _
  · exact hbuf

/-- The failure memory built from any record sequence respects capacity. -/
theorem foldl_recordFailure_length_le (capacity : ℕ) (confThreshold : ℚ)
    (recs : List FailureRecord) (buf : List FailureRecord)
    (hbuf : buf.length ≤ capacity) :
    (recs.foldl (recordFailure capacity confThreshold) buf).length ≤ capacity := by
  induction recs generalizing buf with
  | nil => exact hbuf
  | cons x ms ih =>
    rw [List.foldl_cons]
    exact ih _ (recordFailure_length_le _ _ _ _ hbuf)

/-- C4: the failure memory never holds more than `capacity` records, for
any candidate stream; and when every fed record qualifies, the buffer holds
exactly the most recent `capacity` records (oldest evicted first) — in the
scenario of 60 qualifying failures at capacity 50, exactly the last 50
remain and the oldest 10 are evicted. -/
theorem failureMemory_capacity_and_eviction (capacity : ℕ) (confThreshold : ℚ)
    (recs : List FailureRecord) :
    (feedFailures capacity confThreshold recs).length ≤ capacity ∧
      ((∀ r ∈ recs, admitsRecord confThreshold r = true) →
        feedFailures capacity confThreshold recs = takeLast capacity recs) ∧
      ((∀ r ∈ recs, admitsRecord confThreshold r = true) → recs.length = 60 →
        feedFailures 50 confThreshold recs = recs.drop 10) := by
  refine ⟨foldl_recordFailure_length_le _ _ _ _ (by simp), ?_, ?_⟩
  · intro hq
    have h := foldl_recordFailure capacity confThreshold recs [] (by simp) hq
    simpa [feedFailures] using h
  · intro hq hlen
    have h := foldl_recordFailure 50 confThreshold recs [] (by simp) hq
    unfold feedFailures
    rw [h]
    unfold takeLast
    simp [hlen]

/-- Witness for C4: feeding 60 qualifying failure records (timestamps 0–59,
confidence 1, misclassified) into a capacity-50 memory leaves exactly the
50 most recent, i.e. the records with timestamps 10–59. -/
theorem failureMemory_witness :
    feedFailures 50 0 ((List.range 60).map (fun i => ⟨i, 1, true⟩)) =
      ((List.range 60).map (fun i => ⟨i, 1, true⟩)).drop 10 :=
  (failureMemory_capacity_and_eviction 50 0 _).2.2
    (by
      intro r hr
      simp only [List.mem_map] at hr
      obtain ⟨i, -, rfl⟩ := hr
      simp [admitsRecord])
    (by simp)

/-- C7 counterexample: the `step` control command is not idempotent — from
a paused session with no samples admitted, two consecutive `step` commands
admit two samples while a single `step` admits one, so the resulting
session states differ. -/
theorem step_not_idempotent :
    applyCommand (applyCommand ⟨true, 0, none, 0⟩ .step) .step ≠
      applyCommand (⟨true, 0, none, 0⟩ : OrchState) .step := by
  decide

/-- C7 (amended): every control command other than `step` — pause, resume,
set_threshold, set_regime_override, reset — is idempotent: applying it
twice in a row leaves the session state identical to applying it once. -/
theorem applyCommand_idempotent_of_ne_step (st : OrchState) (c : Command)
    (hc : c ≠ .step) :
    applyCommand (applyCommand st c) c = applyCommand st c := by
  cases c <;> simp_all [applyCommand, initOrch]

/-- Witness for the amended C7: issuing `pause` twice from the initial
running session equals issuing it once. -/
theorem applyCommand_idempotent_witness :
    applyCommand (applyCommand initOrch .pause) .pause =
      applyCommand initOrch .pause :=
  applyCommand_idempotent_of_ne_step initOrch .pause (by decide)

/-- C5: processing a sample never changes whether the session is active —
no outcome of normal sample processing terminates the session, and this
extends to whole streams of outcomes; when the sample's pipeline raises a
`ProcessingFault`, the emitted record is marked processing-error with the
fail-safe decision ABSTAIN; only the explicit external stop ends the
session. -/
theorem processingFault_failsafe (st : SessionState)
    (outcome : Except ProcessingFault Decision) :
    (handleSample st outcome).1.active = st.active ∧
      (∀ f : ProcessingFault, outcome = .error f →
        (handleSample st outcome).2.decision = .ABSTAIN ∧
          (handleSample st outcome).2.processingError = true) ∧
      (∀ outcomes, (runStream st outcomes).active = st.active) ∧
      (stopSession st).active = false := by
  refine ⟨?_, ?_, ?_, rfl⟩
  · cases outcome <;> rfl
  · rintro f rfl
    exact ⟨rfl, rfl⟩
  · intro outcomes
    induction outcomes generalizing st with
    | nil => rfl
    | cons o os ih =>
      have h : (handleSample st o).1.active = st.active := by
        cases o <;> rfl
      rw [runStream, List.foldl_cons, ← h]
      exact ih _
/-- Witness for C5: an active session processing a sample whose pipeline
faults stays active, and the emitted record is ABSTAIN with the
processing-error flag set. -/
theorem processingFault_failsafe_witness :
    (handleSample ⟨true, 0⟩ (.error (.fault 0))).1.active = true ∧
      (handleSample ⟨true, 0⟩ (.error (.fault 0))).2.decision = .ABSTAIN ∧
      (handleSample ⟨true, 0⟩ (.error (.fault 0))).2.processingError = true := by
  have h := processingFault_failsafe ⟨true, 0⟩ (.error (.fault 0))
  have h2 := h.2.1 (.fault 0) rfl
  exact ⟨h.1, h2.1, h2.2⟩

/-- On `[0,1]` inputs the clamp in `riskStep` is the identity: the update is
exactly the EMA formula. -/
theorem riskStep_eq_of_mem_Icc (α s r : ℝ) (hα0 : 0 ≤ α) (hα1 : α ≤ 1)
    (hs0 : 0 ≤ s) (hs1 : s ≤ 1) (hr0 : 0 ≤ r) (hr1 : r ≤ 1) :
    riskStep α s r = α * s + (1 - α) * r := by
  unfold riskStep clamp01
  have h0 : 0 ≤ α * s + (1 - α) * r := by nlinarith
  have h1 : α * s + (1 - α) * r ≤ 1 := by nlinarith
  rw [min_eq_right h1, max_eq_right h0]

/-- Under `[0,1]` inputs the iterated risk stays in `[0,1]` and admits the
closed form `risk_n − s = (1−α)^n (risk_0 − s)`. -/
theorem riskIter_closed (α s r0 : ℝ) (hα0 : 0 ≤ α) (hα1 : α ≤ 1)
    (hs0 : 0 ≤ s) (hs1 : s ≤ 1) (hr0 : 0 ≤ r0) (hr1 : r0 ≤ 1) (n : ℕ) :
    (0 ≤ riskIter α s r0 n ∧ riskIter α s r0 n ≤ 1) ∧
      riskIter α s r0 n - s = (1 - α) ^ n * (r0 - s) := by
  induction n with
  | zero =>
    refine ⟨⟨hr0, hr1⟩, ?_⟩
    simp [riskIter]
  | succ n ih =>
    obtain ⟨⟨hx0, hx1⟩, hclosed⟩ := ih
    have hstep : riskIter α s r0 (n + 1) =
        α * s + (1 - α) * riskIter α s r0 n :=
      riskStep_eq_of_mem_Icc α s _ hα0 hα1 hs0 hs1 hx0 hx1
    refine ⟨⟨?_, ?_⟩, ?_⟩
    · rw [hstep]; nlinarith
    · rw [hstep]; nlinarith
    · rw [hstep]
      have : α * s + (1 - α) * riskIter α s r0 n - s =
          (1 - α) * (riskIter α s r0 n - s) := by ring
      rw [this, hclosed, pow_succ]
      ring

/-- For `0 < α < 1` and `0 < ε`, after `⌈log ε / log (1−α)⌉` steps the decay
factor has dropped below `ε`. -/
theorem decay_le_of_ceil_steps (α ε : ℝ) (hα0 : 0 < α) (hα1 : α < 1)
    (hε : 0 < ε) (hε1 : ε < 1) :
    (1 - α) ^ (⌈Real.log ε / Real.log (1 - α)⌉.toNat) ≤ ε := by
  set b : ℝ := 1 - α with hb
  have hb0 : 0 < b := by simp [hb]; linarith
  have hb1 : b < 1 := by simp [hb]; linarith
  have hlogb : Real.log b < 0 := Real.log_neg hb0 hb1
  have hlogε : Real.log ε < 0 := Real.log_neg hε hε1
  set q : ℝ := Real.log ε / Real.log b with hq
  set N : ℕ := ⌈q⌉.toNat with hN
  have hqN : q ≤ (N : ℝ) := by
    calc q ≤ (⌈q⌉ : ℝ) := Int.le_ceil q
    _ ≤ ((⌈q⌉.toNat : ℤ) : ℝ) := by exact_mod_cast Int.self_le_toNat ⌈q⌉
    _ = (N : ℝ) := by push_cast [hN]; ring
  have hNL : (N : ℝ) * Real.log b ≤ Real.log ε := by
    have := mul_le_mul_of_nonpos_right hqN (le_of_lt hlogb)
    calc (N : ℝ) * Real.log b ≤ q * Real.log b := this
    _ = Real.log ε := by
        rw [hq, div_mul_cancel₀ _ (ne_of_lt hlogb)]
  have hpow : b ^ N = Real.exp ((N : ℝ) * Real.log b) := by
    rw [← Real.log_pow]
    rw [Real.exp_log (pow_pos hb0 N)]
  rw [hpow]
  calc Real.exp ((N : ℝ) * Real.log b) ≤ Real.exp (Real.log ε) :=
        Real.exp_le_exp.mpr hNL
  _ = ε := Real.exp_log hε

/-- C6: the risk signal follows the clamped EMA update
`risk_t = clamp(α·s + (1−α)·risk_{t−1})`, and under a constant raw input
signal `s ∈ [0,1]`, any starting risk in `[0,1]`, any `α ∈ (0,1)` and any
tolerance `ε > 0`, the iterate is within `ε` of `s` after
`⌈log ε / log (1−α)⌉` update steps. -/
theorem ema_update_and_convergence (α s r0 ε : ℝ) (hα0 : 0 < α) (hα1 : α < 1)
    (hs0 : 0 ≤ s) (hs1 : s ≤ 1) (hr0 : 0 ≤ r0) (hr1 : r0 ≤ 1) (hε : 0 < ε) :
    (∀ n, riskIter α s r0 (n + 1) =
        clamp01 (α * s + (1 - α) * riskIter α s r0 n)) ∧
      |riskIter α s r0 (⌈Real.log ε / Real.log (1 - α)⌉.toNat) - s| ≤ ε := by
  refine ⟨fun n => rfl, ?_⟩
  set N : ℕ := ⌈Real.log ε / Real.log (1 - α)⌉.toNat with hN
  have hclosed := (riskIter_closed α s r0 (le_of_lt hα0) (le_of_lt hα1)
    hs0 hs1 hr0 hr1 N).2
  have hb0 : (0 : ℝ) ≤ 1 - α := by linarith
  have hb1 : 1 - α ≤ 1 := by linarith
  have habs : |riskIter α s r0 N - s| = (1 - α) ^ N * |r0 - s| := by
    rw [hclosed, abs_mul, abs_of_nonneg (pow_nonneg hb0 N)]
  have hdiff : |r0 - s| ≤ 1 := by
    rw [abs_le]
    constructor <;> linarith
  rw [habs]
  rcases le_or_lt 1 ε with hε1 | hε1
  · have hmul : (1 - α) ^ N * |r0 - s| ≤ 1 * 1 :=
      mul_le_mul (pow_le_one₀ hb0 hb1) hdiff (abs_nonneg _) zero_le_one
    linarith
  · have hmul : (1 - α) ^ N * |r0 - s| ≤ ε * 1 :=
      mul_le_mul (decay_le_of_ceil_steps α ε hα0 hα1 hε hε1) hdiff
        (abs_nonneg _) (le_of_lt hε)
    linarith

/-- C3: for every nonempty historical record set, the risk–coverage curve's
coverage values are strictly increasing as the sweep relaxes, and its final
point has coverage 1 with an error rate equal to the unconditional baseline
error rate of the input records. -/
theorem riskCoverageCurve_strictMono_and_baseline (recs : List HistRecord)
    (hne : recs ≠ []) :
    ((computeRiskCoverageCurve recs).map Prod.fst).Pairwise (· < ·) ∧
      (computeRiskCoverageCurve recs).getLast? =
        some (1, baselineErrorRate recs) := by
  obtain ⟨n, hn⟩ : ∃ n, recs.length = n + 1 := by
    cases recs with
    | nil => exact absurd rfl hne
    | cons a t => exact ⟨t.length, rfl⟩
  have hnQ : (0 : ℚ) < (recs.length : ℚ) := by
    rw [hn]
    positivity
  constructor
  · unfold computeRiskCoverageCurve
    rw [List.map_map, List.pairwise_map]
    refine (List.pairwise_lt_range recs.length).imp ?_
    intro a b hab
    simp only [Function.comp]
    rw [div_lt_div_iff_of_pos_right hnQ]
    have : (a : ℚ) < (b : ℚ) := by exact_mod_cast hab
    linarith
  · unfold computeRiskCoverageCurve
    rw [hn, List.range_succ, List.map_append, List.map_singleton,
      List.getLast?_concat]
    have hsortlen : (recs.mergeSort rankLE).length = n + 1 :=
      (List.mergeSort_perm recs rankLE).length_eq.trans hn
    have htake : (recs.mergeSort rankLE).take (n + 1) = recs.mergeSort rankLE := by
      rw [← hsortlen, List.take_length]
    have hcount : errorCount (recs.mergeSort rankLE) = errorCount recs :=
      (List.mergeSort_perm recs rankLE).countP_eq _
    have hcov : ((n : ℚ) + 1) / (((n + 1 : ℕ) : ℚ)) = 1 := by
      push_cast
      rw [div_self (by positivity)]
    have herr : (errorCount ((recs.mergeSort rankLE).take (n + 1)) : ℚ) /
        ((n : ℚ) + 1) = baselineErrorRate recs := by
      rw [htake, hcount]
      unfold baselineErrorRate
      rw [hn]
      push_cast
      ring
    rw [hcov, herr]

/-- Witness for C3: on the two-record set {(risk 0, confidence 1, error),
(risk 1, confidence 1, correct)} the curve's coverages are strictly
increasing and its last point is (1, baseline error rate). -/
theorem riskCoverageCurve_witness :
    ((computeRiskCoverageCurve [⟨0, 1, true⟩, ⟨1, 1, false⟩]).map
        Prod.fst).Pairwise (· < ·) ∧
      (computeRiskCoverageCurve [⟨0, 1, true⟩, ⟨1, 1, false⟩]).getLast? =
        some (1, baselineErrorRate [⟨0, 1, true⟩, ⟨1, 1, false⟩]) :=
  riskCoverageCurve_strictMono_and_baseline [⟨0, 1, true⟩, ⟨1, 1, false⟩]
    (by simp)

/-- Witness for C6: with α = 1/2, constant signal 1, starting risk 0 and
tolerance 1, the iterate after `⌈log 1 / log (1/2)⌉` steps is within 1 of
the signal. -/
theorem ema_convergence_witness :
    (∀ n, riskIter (1 / 2) 1 0 (n + 1) =
        clamp01 ((1 / 2) * 1 + (1 - 1 / 2) * riskIter (1 / 2) 1 0 n)) ∧
      |riskIter (1 / 2) 1 0 (⌈Real.log 1 / Real.log (1 - 1 / 2)⌉.toNat) - 1|
        ≤ 1 :=
  ema_update_and_convergence (1 / 2) 1 0 1 (by norm_num) (by norm_num)
    (by norm_num) (by norm_num) (by norm_num) (by norm_num) (by norm_num)

end IFM
